import Mathlib

set_option maxRecDepth 10000

/-!
Shallow embedding of the `authcookie` Go package (signed authentication
cookies).  Byte strings are modelled as `List Nat` with every element below
256.  The embedding covers: SHA-256, HMAC-SHA256 (the construction used by
`crypto/hmac`'s `NewSHA256`), the URL-safe base64 codec of `encoding/base64`
(`URLEncoding`, padded, with the decode semantics of the `os.Error`-era
standard library), `crypto/subtle.ConstantTimeCompare`, and the package
functions `New`, `Parse` and `Login` from `authcookie.go`.
-/

deriving instance DecidableEq for Except

namespace Authcookie

/-! ## SHA-256 -/

/-- 32-bit truncation, written `% 2^32` on `Nat`. -/
def m32 (x : Nat) : Nat := x % 4294967296

/-- Rotate a 32-bit word right by `n` bits. -/
def rotr (n x : Nat) : Nat := m32 ((x >>> n) ||| (x <<< (32 - n)))

/-- SHA-256 big sigma-0. -/
def bsig0 (x : Nat) : Nat := Nat.xor (rotr 2 x) (Nat.xor (rotr 13 x) (rotr 22 x))

/-- SHA-256 big sigma-1. -/
def bsig1 (x : Nat) : Nat := Nat.xor (rotr 6 x) (Nat.xor (rotr 11 x) (rotr 25 x))

/-- SHA-256 small sigma-0. -/
def ssig0 (x : Nat) : Nat := Nat.xor (rotr 7 x) (Nat.xor (rotr 18 x) (x >>> 3))

/-- SHA-256 small sigma-1. -/
def ssig1 (x : Nat) : Nat := Nat.xor (rotr 17 x) (Nat.xor (rotr 19 x) (x >>> 10))

/-- SHA-256 choice function: bits of `f` where `e` is 1, of `g` where `e` is 0. -/
def ch (e f g : Nat) : Nat := Nat.xor (e &&& f) ((Nat.xor e 4294967295) &&& g)

/-- SHA-256 majority function. -/
def maj (a b c : Nat) : Nat := Nat.xor (a &&& b) (Nat.xor (a &&& c) (b &&& c))

/-- The 64 SHA-256 round constants. -/
def k256 : List Nat :=
  [1116352408, 1899447441, 3049323471, 3921009573, 961987163, 1508970993,
   2453635748, 2870763221, 3624381080, 310598401, 607225278, 1426881987,
   1925078388, 2162078206, 2614888103, 3248222580, 3835390401, 4022224774,
   264347078, 604807628, 770255983, 1249150122, 1555081692, 1996064986,
   2554220882, 2821834349, 2952996808, 3210313671, 3336571891, 3584528711,
   113926993, 338241895, 666307205, 773529912, 1294757372, 1396182291,
   1695183700, 1986661051, 2177026350, 2456956037, 2730485921, 2820302411,
   3259730800, 3345764771, 3516065817, 3600352804, 4094571909, 275423344,
   430227734, 506948616, 659060556, 883997877, 958139571, 1322822218,
   1537002063, 1747873779, 1955562222, 2024104815, 2227730452, 2361852424,
   2428436474, 2756734187, 3204031479, 3329325298]

/-- The SHA-256 working state: eight 32-bit words. -/
structure Sha256State where
  h0 : Nat
  h1 : Nat
  h2 : Nat
  h3 : Nat
  h4 : Nat
  h5 : Nat
  h6 : Nat
  h7 : Nat

/-- The SHA-256 initial hash value. -/
def sha256init : Sha256State :=
  ⟨1779033703, 3144134277, 1013904242, 2773480762,
   1359893119, 2600822924, 528734635, 1541459225⟩

/-- Big-endian 32-bit words from a byte list (groups of four bytes). -/
def toWordsBE : List Nat → List Nat
  | b0 :: b1 :: b2 :: b3 :: rest =>
    (b0 <<< 24 ||| b1 <<< 16 ||| b2 <<< 8 ||| b3) :: toWordsBE rest
  | _ => []

/-- Extend a 16-word block to the 64-word SHA-256 message schedule. -/
def extendW (w : List Nat) : List Nat :=
  (List.range 48).foldl
    (fun w _ =>
      let n := w.length
      w ++ [m32 (ssig1 (w.getD (n - 2) 0) + w.getD (n - 7) 0 +
                 ssig0 (w.getD (n - 15) 0) + w.getD (n - 16) 0)])
    w

/-- One SHA-256 compression round. -/
def sha256Step (st : Sha256State) (k w : Nat) : Sha256State :=
  let t1 := m32 (st.h7 + bsig1 st.h4 + ch st.h4 st.h5 st.h6 + k + w)
  let t2 := m32 (bsig0 st.h0 + maj st.h0 st.h1 st.h2)
  ⟨m32 (t1 + t2), st.h0, st.h1, st.h2, m32 (st.h3 + t1), st.h4, st.h5, st.h6⟩

/-- Process one 64-byte block. -/
def sha256Block (st : Sha256State) (block : List Nat) : Sha256State :=
  let w := extendW (toWordsBE block)
  let t := (List.zip k256 w).foldl (fun s p => sha256Step s p.1 p.2) st
  ⟨m32 (st.h0 + t.h0), m32 (st.h1 + t.h1), m32 (st.h2 + t.h2), m32 (st.h3 + t.h3),
   m32 (st.h4 + t.h4), m32 (st.h5 + t.h5), m32 (st.h6 + t.h6), m32 (st.h7 + t.h7)⟩

/-- Serialize a 32-bit word to four big-endian bytes. -/
def wordBytesBE (w : Nat) : List Nat := [w >>> 24, w >>> 16, w >>> 8, w].map (· % 256)

/-- SHA-256 padding: `0x80`, zeros to 56 mod 64, then the 64-bit big-endian
bit length. -/
def sha256Pad (msg : List Nat) : List Nat :=
  let l := msg.length
  msg ++ [128] ++ List.replicate ((120 - (l + 1) % 64) % 64) 0 ++
    ([(l * 8) >>> 56, (l * 8) >>> 48, (l * 8) >>> 40, (l * 8) >>> 32,
      (l * 8) >>> 24, (l * 8) >>> 16, (l * 8) >>> 8, l * 8].map (· % 256))

/-- Split a list into 64-byte chunks (`fuel` bounds the recursion; it is
called with the length of the list, which suffices). -/
def chunks64 : Nat → List Nat → List (List Nat)
  | 0, _ => []
  | _, [] => []
  | fuel + 1, l => l.take 64 :: chunks64 fuel (l.drop 64)

/-- The SHA-256 digest (32 bytes) of a byte list. -/
def sha256 (msg : List Nat) : List Nat :=
  let padded := sha256Pad msg
  let st := (chunks64 padded.length padded).foldl sha256Block sha256init
  wordBytesBE st.h0 ++ wordBytesBE st.h1 ++ wordBytesBE st.h2 ++ wordBytesBE st.h3 ++
  wordBytesBE st.h4 ++ wordBytesBE st.h5 ++ wordBytesBE st.h6 ++ wordBytesBE st.h7

/-! ## HMAC-SHA256 (`crypto/hmac`, `NewSHA256`) -/

/-- The SHA-256 block size used by HMAC key padding. -/
def hmacPadSize : Nat := 64

/-- HMAC-SHA256 of `msg` under `key`: keys longer than one block are hashed,
then zero-padded to the block size; the result is
`SHA256(key ^ opad || SHA256(key ^ ipad || msg))`. -/
def hmacSHA256 (key msg : List Nat) : List Nat :=
  let k0 := if hmacPadSize < key.length then sha256 key else key
  let kp := k0 ++ List.replicate (hmacPadSize - k0.length) 0
  sha256 ((kp.map (fun x => Nat.xor x 92)) ++ sha256 ((kp.map (fun x => Nat.xor x 54)) ++ msg))

/-! ## Base64, URL-safe alphabet, padded (`encoding/base64.URLEncoding`) -/

/-- The URL-safe base64 alphabet (RFC 4648), as ASCII codes. -/
def b64alphabet : List Nat :=
  [65, 66, 67, 68, 69, 70, 71, 72, 73, 74, 75, 76, 77, 78, 79, 80, 81, 82, 83, 84,
   85, 86, 87, 88, 89, 90, 97, 98, 99, 100, 101, 102, 103, 104, 105, 106, 107, 108,
   109, 110, 111, 112, 113, 114, 115, 116, 117, 118, 119, 120, 121, 122, 48, 49, 50,
   51, 52, 53, 54, 55, 56, 57, 45, 95]

/-- The alphabet character for a 6-bit value. -/
def b64char (n : Nat) : Nat := b64alphabet.getD n 0

/-- The decode table: index in the alphabet, or 255 for bytes outside it
(the `0xFF` marker of the Go implementation; `61`, the pad `=`, is outside). -/
def decodeMap (c : Nat) : Nat :=
  let i := b64alphabet.indexOf c
  if i < 64 then i else 255

/-- `EncodedLen` for padded base64: `(n+2)/3*4`. -/
def encodedLen (n : Nat) : Nat := (n + 2) / 3 * 4

/-- `DecodedLen` for padded base64: `n/4*3`. -/
def decodedLen (n : Nat) : Nat := n / 4 * 3

/-- Base64-encode a byte list, three bytes to four characters, padding the
final quantum with `=` (61). -/
def b64encode : List Nat → List Nat
  | [] => []
  | [a] => [b64char (a >>> 2), b64char ((a &&& 3) <<< 4), 61, 61]
  | [a, b] => [b64char (a >>> 2), b64char ((a &&& 3) <<< 4 ||| b >>> 4),
               b64char ((b &&& 15) <<< 2), 61]
  | a :: b :: c :: rest =>
    b64char (a >>> 2) :: b64char ((a &&& 3) <<< 4 ||| b >>> 4) ::
    b64char ((b &&& 15) <<< 2 ||| c >>> 6) :: b64char (c &&& 63) :: b64encode rest

/-- Decode base64 quanta of four characters, mirroring the Go decoder:
each character is looked up in `decodeMap` in order (error position on the
first invalid byte); `=` is recognized only at positions 2 and 3 of the final
quantum, and a `=` at position 2 requires one at position 3. -/
def b64decodeQuanta : List Nat → Nat → Except Nat (List Nat)
  | [], _ => .ok []
  | c0 :: c1 :: c2 :: c3 :: rest, pos =>
    if decodeMap c0 = 255 then .error pos
    else if decodeMap c1 = 255 then .error (pos + 1)
    else if rest = [] ∧ c2 = 61 then
      if c3 = 61 then .ok [decodeMap c0 <<< 2 ||| decodeMap c1 >>> 4]
      else .error (pos + 2)
    else if decodeMap c2 = 255 then .error (pos + 2)
    else if rest = [] ∧ c3 = 61 then
      .ok [decodeMap c0 <<< 2 ||| decodeMap c1 >>> 4,
           (decodeMap c1 &&& 15) <<< 4 ||| decodeMap c2 >>> 2]
    else if decodeMap c3 = 255 then .error (pos + 3)
    else
      match b64decodeQuanta rest (pos + 4) with
      | .error e => .error e
      | .ok tail =>
        .ok ((decodeMap c0 <<< 2 ||| decodeMap c1 >>> 4) ::
             ((decodeMap c1 &&& 15) <<< 4 ||| decodeMap c2 >>> 2) ::
             ((decodeMap c2 &&& 3) <<< 6 ||| decodeMap c3) :: tail)
  | _, pos => .error pos

/-- `Decode`: a length not a multiple of four is corrupt input at position
`len/4*4`; otherwise the quanta are decoded.  The error value is the byte
position of the Go `CorruptInputError`. -/
def b64decode (src : List Nat) : Except Nat (List Nat) :=
  if src.length % 4 = 0 then b64decodeQuanta src 0
  else .error (src.length / 4 * 4)

/-! ## `crypto/subtle` -/

/-- `ConstantTimeByteEq`: 1 if the two bytes are equal, 0 otherwise, computed
by the branch-free bit trick of the Go implementation (`^` on a byte is
xor with 255). -/
def constantTimeByteEq (x y : Nat) : Nat :=
  let z0 := Nat.xor (Nat.xor x y) 255
  let z1 := z0 &&& (z0 >>> 4)
  let z2 := z1 &&& (z1 >>> 2)
  let z3 := z2 &&& (z2 >>> 1)
  z3 &&& 1

/-- `ConstantTimeCompare`: or together the xor of every byte pair over the
whole width, then test the accumulator against zero. -/
def constantTimeCompare (x y : List Nat) : Nat :=
  constantTimeByteEq ((List.zipWith Nat.xor x y).foldl Nat.lor 0) 0

/-- The same loop as `constantTimeCompare`, instrumented with a counter of
loop iterations (the cost model for the timing claim): it returns the
accumulator and the number of byte pairs examined. -/
def constantTimeCompareCounted (x y : List Nat) : Nat × Nat :=
  (List.zipWith Nat.xor x y).foldl (fun p d => (p.1 ||| d, p.2 + 1)) (0, 0)

/-! ## `encoding/binary` big-endian 32-bit -/

/-- `PutUint32`: four big-endian bytes of a 32-bit value. -/
def putUint32BE (v : Nat) : List Nat := [v >>> 24, v >>> 16, v >>> 8, v].map (· % 256)

/-- `Uint32`: recombine four big-endian bytes. -/
def beUint32 : List Nat → Nat
  | b0 :: b1 :: b2 :: b3 :: _ => b0 <<< 24 ||| b1 <<< 16 ||| b2 <<< 8 ||| b3
  | _ => 0

/-! ## The `authcookie` package -/

/-- `decodedMinLength`: 4 expiration bytes + at least 1 login byte +
32 signature bytes. -/
def decodedMinLength : Nat := 4 + 1 + 32

/-- `MinLength`: minimum length of an encoded cookie string. -/
def MinLength : Nat := encodedLen decodedMinLength

/-- The errors `Parse` can produce: `ErrMalformedCookie`, the base64
`CorruptInputError` (with its byte position), and `ErrWrongSignature`. -/
inductive CookieError where
  | malformedCookie : CookieError
  | corruptInput : Nat → CookieError
  | wrongSignature : CookieError
deriving DecidableEq, Repr

/-- `getSignature`: HMAC-SHA256 of `b` keyed with the HMAC-SHA256 of `b`
under the secret key. -/
def getSignature (b secret : List Nat) : List Nat :=
  let keym := hmacSHA256 secret b
  hmacSHA256 keym b

/-- `New`: empty login gives the empty string; otherwise the base64 encoding
of expiration (low 32 bits of the `int64`, big-endian) ‖ login ‖ signature. -/
def New (login : List Nat) (expires : Int) (secret : List Nat) : List Nat :=
  if login = [] then []
  else
    let data := putUint32BE (expires % 4294967296).toNat ++ login
    let sig := getSignature data secret
    b64encode (data ++ sig)

/-- `Parse`: reject short input before decoding, return base64 decode errors
as they are, reject decoded input shorter than `decodedMinLength`, then
recompute the signature over the data part and compare in constant time;
on success return login and expiration. -/
def Parse (cookie : List Nat) (secret : List Nat) :
    Except CookieError (List Nat × Int) :=
  if decodedLen cookie.length < decodedMinLength then
    .error .malformedCookie
  else
    match b64decode cookie with
    | .error p => .error (.corruptInput p)
    | .ok b =>
      if b.length < decodedMinLength then .error .malformedCookie
      else
        let sig := b.drop (b.length - 32)
        let data := b.take (b.length - 32)
        let realSig := getSignature data secret
        if constantTimeCompare realSig sig = 1 then
          .ok (data.drop 4, Int.ofNat (beUint32 (data.take 4)))
        else
          .error .wrongSignature

/-- `Login`: the login from a cookie that parses and has not expired at
`now` (the value of `time.Seconds()`), the empty string otherwise. -/
def Login (cookie : List Nat) (secret : List Nat) (now : Int) : List Nat :=
  match Parse cookie secret with
  | .error _ => []
  | .ok (l, exp) => if exp < now then [] else l

/-- The tag construction in the words of the specification: a derived key
`HMAC-SHA256(message = payload, key = secret)`, then the tag
`HMAC-SHA256(message = payload, key = derived_key)`.  Stated separately from
`getSignature` (which is translated from the code) so the two can be
compared. -/
def specTwoPassTag (payload secret : List Nat) : List Nat :=
  let derivedKey := hmacSHA256 secret payload
  hmacSHA256 derivedKey payload

end Authcookie

namespace Authcookie

/-! ## Bit-arithmetic helpers -/

theorem or_eq_add_left (k x y : Nat) (hx : x % 2 ^ k = 0) (hy : y < 2 ^ k) :
    x ||| y = x + y := by
  obtain ⟨c, rfl⟩ : ∃ c, x = 2 ^ k * c :=
    ⟨x / 2 ^ k, (Nat.mul_div_cancel' (Nat.dvd_of_mod_eq_zero hx)).symm⟩
  rw [← Nat.mul_add_lt_is_or hy]

theorem and_three (x : Nat) : x &&& 3 = x % 4 := by
  have h := Nat.and_pow_two_sub_one_eq_mod x 2
  norm_num at h
  exact h

theorem and_fifteen (x : Nat) : x &&& 15 = x % 16 := by
  have h := Nat.and_pow_two_sub_one_eq_mod x 4
  norm_num at h
  exact h

theorem and_sixtythree (x : Nat) : x &&& 63 = x % 64 := by
  have h := Nat.and_pow_two_sub_one_eq_mod x 6
  norm_num at h
  exact h

theorem shiftRight2_lt {a : Nat} (ha : a < 256) : a >>> 2 < 64 := by
  rw [Nat.shiftRight_eq_div_pow]; omega

theorem digit1_eq (a b : Nat) (hb : b < 256) :
    (a &&& 3) <<< 4 ||| b >>> 4 = a % 4 * 16 + b / 16 := by
  simp only [and_three, Nat.shiftLeft_eq, Nat.shiftRight_eq_div_pow]
  norm_num
  exact or_eq_add_left 4 (a % 4 * 16) (b / 16) (by omega) (by omega)

theorem digit1_lt {a b : Nat} (hb : b < 256) : (a &&& 3) <<< 4 ||| b >>> 4 < 64 := by
  rw [digit1_eq a b hb]; omega

theorem digit1p_lt (a : Nat) : (a &&& 3) <<< 4 < 64 := by
  simp only [and_three, Nat.shiftLeft_eq]; norm_num; omega

theorem digit2_eq (b c : Nat) (hc : c < 256) :
    (b &&& 15) <<< 2 ||| c >>> 6 = b % 16 * 4 + c / 64 := by
  simp only [and_fifteen, Nat.shiftLeft_eq, Nat.shiftRight_eq_div_pow]
  norm_num
  exact or_eq_add_left 2 (b % 16 * 4) (c / 64) (by omega) (by omega)

theorem digit2_lt {b c : Nat} (hc : c < 256) : (b &&& 15) <<< 2 ||| c >>> 6 < 64 := by
  rw [digit2_eq b c hc]; omega

theorem digit2p_lt (b : Nat) : (b &&& 15) <<< 2 < 64 := by
  simp only [and_fifteen, Nat.shiftLeft_eq]; norm_num; omega

theorem digit3_lt (c : Nat) : c &&& 63 < 64 := by
  rw [and_sixtythree]; omega

theorem reasm_b0 (a b : Nat) (ha : a < 256) (hb : b < 256) :
    (a >>> 2) <<< 2 ||| ((a &&& 3) <<< 4 ||| b >>> 4) >>> 4 = a := by
  rw [digit1_eq a b hb]
  simp only [Nat.shiftLeft_eq, Nat.shiftRight_eq_div_pow]
  norm_num
  have e2 : (a % 4 * 16 + b / 16) / 16 = a % 4 := by omega
  rw [e2, or_eq_add_left 2 (a / 4 * 4) (a % 4) (by omega) (by omega)]
  omega

theorem reasm_b1 (a b c : Nat) (hb : b < 256) (hc : c < 256) :
    (((a &&& 3) <<< 4 ||| b >>> 4) &&& 15) <<< 4 |||
      ((b &&& 15) <<< 2 ||| c >>> 6) >>> 2 = b := by
  rw [digit1_eq a b hb, digit2_eq b c hc]
  simp only [and_fifteen, Nat.shiftLeft_eq, Nat.shiftRight_eq_div_pow]
  norm_num
  have e1 : (a % 4 * 16 + b / 16) % 16 = b / 16 := by omega
  have e2 : (b % 16 * 4 + c / 64) / 4 = b % 16 := by omega
  rw [e1, e2, or_eq_add_left 4 (b / 16 * 16) (b % 16) (by omega) (by omega)]
  omega

theorem reasm_b2 (b c : Nat) (hb : b < 256) (hc : c < 256) :
    (((b &&& 15) <<< 2 ||| c >>> 6) &&& 3) <<< 6 ||| (c &&& 63) = c := by
  rw [digit2_eq b c hc]
  simp only [and_three, and_sixtythree, Nat.shiftLeft_eq]
  norm_num
  have e1 : (b % 16 * 4 + c / 64) % 4 = c / 64 := by omega
  rw [e1, or_eq_add_left 6 (c / 64 * 64) (c % 64) (by omega) (by omega)]
  omega

theorem reasm_b0p (a : Nat) (ha : a < 256) :
    (a >>> 2) <<< 2 ||| ((a &&& 3) <<< 4) >>> 4 = a := by
  simp only [and_three, Nat.shiftLeft_eq, Nat.shiftRight_eq_div_pow]
  norm_num
  rw [or_eq_add_left 2 (a / 4 * 4) (a % 4) (by omega) (by omega)]
  omega

theorem reasm_b1p (a b : Nat) (hb : b < 256) :
    (((a &&& 3) <<< 4 ||| b >>> 4) &&& 15) <<< 4 ||| ((b &&& 15) <<< 2) >>> 2 = b := by
  rw [digit1_eq a b hb]
  simp only [and_fifteen, Nat.shiftLeft_eq, Nat.shiftRight_eq_div_pow]
  norm_num
  have e1 : (a % 4 * 16 + b / 16) % 16 = b / 16 := by omega
  rw [e1, or_eq_add_left 4 (b / 16 * 16) (b % 16) (by omega) (by omega)]
  omega

/-! ## Base64 alphabet facts -/

theorem dm_b64char : ∀ n < 64, decodeMap (b64char n) = n := by decide

theorem b64char_ne_pad : ∀ n < 64, b64char n ≠ 61 := by decide

end Authcookie

namespace Authcookie

/-! ## Base64 round-trip -/

theorem b64encode_length : ∀ b : List Nat, (b64encode b).length = (b.length + 2) / 3 * 4
  | [] => rfl
  | [_] => by simp [b64encode]
  | [_, _] => by simp [b64encode]
  | _ :: _ :: _ :: rest => by
    simp only [b64encode, List.length_cons, b64encode_length rest]
    omega

theorem b64encode_ne_nil : ∀ b : List Nat, b ≠ [] → b64encode b ≠ []
  | [], h => absurd rfl h
  | [_], _ => by simp [b64encode]
  | [_, _], _ => by simp [b64encode]
  | _ :: _ :: _ :: _, _ => by simp [b64encode]

theorem b64decodeQuanta_encode :
    ∀ b : List Nat, (∀ x ∈ b, x < 256) → ∀ pos,
      b64decodeQuanta (b64encode b) pos = .ok b
  | [], _, _ => rfl
  | [a], h, pos => by
    have ha : a < 256 := h a (by simp)
    have h0 : decodeMap (b64char (a >>> 2)) = a >>> 2 :=
      dm_b64char _ (shiftRight2_lt ha)
    have h1 : decodeMap (b64char ((a &&& 3) <<< 4)) = (a &&& 3) <<< 4 :=
      dm_b64char _ (digit1p_lt a)
    have hn0 : a >>> 2 ≠ 255 := by have := shiftRight2_lt ha; omega
    have hn1 : (a &&& 3) <<< 4 ≠ 255 := by have := digit1p_lt a; omega
    simp [b64encode, b64decodeQuanta, h0, h1, hn0, hn1]
    simp only [and_three, Nat.shiftLeft_eq, Nat.shiftRight_eq_div_pow]
    norm_num
    rw [or_eq_add_left 2 (a / 4 * 4) (a % 4) (by omega) (by omega)]
    omega
  | [a, b], h, pos => by
    have ha : a < 256 := h a (by simp)
    have hb : b < 256 := h b (by simp)
    have h0 : decodeMap (b64char (a >>> 2)) = a >>> 2 :=
      dm_b64char _ (shiftRight2_lt ha)
    have h1 : decodeMap (b64char ((a &&& 3) <<< 4 ||| b >>> 4)) =
        (a &&& 3) <<< 4 ||| b >>> 4 := dm_b64char _ (digit1_lt hb)
    have h2 : decodeMap (b64char ((b &&& 15) <<< 2)) = (b &&& 15) <<< 2 :=
      dm_b64char _ (digit2p_lt b)
    have hn0 : a >>> 2 ≠ 255 := by have := shiftRight2_lt ha; omega
    have hn1 : (a &&& 3) <<< 4 ||| b >>> 4 ≠ 255 := by have := digit1_lt (a := a) hb; omega
    have hn2 : (b &&& 15) <<< 2 ≠ 255 := by have := digit2p_lt b; omega
    have hp2 : b64char ((b &&& 15) <<< 2) ≠ 61 := b64char_ne_pad _ (digit2p_lt b)
    simp [b64encode, b64decodeQuanta, h0, h1, h2, hn0, hn1, hn2, hp2]
    constructor
    · exact reasm_b0 a b ha hb
    · rw [digit1_eq a b hb]
      simp only [and_fifteen, Nat.shiftLeft_eq]
      norm_num
      have e1 : (a % 4 * 16 + b / 16) % 16 = b / 16 := by omega
      rw [e1, or_eq_add_left 4 (b / 16 * 16) (b % 16) (by omega) (by omega)]
      omega
  | a :: b :: c :: rest, h, pos => by
    have ha : a < 256 := h a (by simp)
    have hb : b < 256 := h b (by simp)
    have hc : c < 256 := h c (by simp)
    have hrest : ∀ x ∈ rest, x < 256 := fun x hx => h x (by simp [hx])
    have ih := b64decodeQuanta_encode rest hrest (pos + 4)
    have h0 : decodeMap (b64char (a >>> 2)) = a >>> 2 :=
      dm_b64char _ (shiftRight2_lt ha)
    have h1 : decodeMap (b64char ((a &&& 3) <<< 4 ||| b >>> 4)) =
        (a &&& 3) <<< 4 ||| b >>> 4 := dm_b64char _ (digit1_lt hb)
    have h2 : decodeMap (b64char ((b &&& 15) <<< 2 ||| c >>> 6)) =
        (b &&& 15) <<< 2 ||| c >>> 6 := dm_b64char _ (digit2_lt hc)
    have h3 : decodeMap (b64char (c &&& 63)) = c &&& 63 :=
      dm_b64char _ (digit3_lt c)
    have hn0 : a >>> 2 ≠ 255 := by have := shiftRight2_lt ha; omega
    have hn1 : (a &&& 3) <<< 4 ||| b >>> 4 ≠ 255 := by have := digit1_lt (a := a) hb; omega
    have hn2 : (b &&& 15) <<< 2 ||| c >>> 6 ≠ 255 := by have := digit2_lt (b := b) hc; omega
    have hn3 : c &&& 63 ≠ 255 := by have := digit3_lt c; omega
    have hp2 : b64char ((b &&& 15) <<< 2 ||| c >>> 6) ≠ 61 :=
      b64char_ne_pad _ (digit2_lt hc)
    have hp3 : b64char (c &&& 63) ≠ 61 := b64char_ne_pad _ (digit3_lt c)
    simp [b64encode, b64decodeQuanta, h0, h1, h2, h3, hn0, hn1, hn2, hn3, hp2, hp3, ih]
    refine ⟨reasm_b0 a b ha hb, reasm_b1 a b c hb hc, ?_⟩
    exact reasm_b2 b c hb hc

theorem b64decode_encode (b : List Nat) (hb : ∀ x ∈ b, x < 256) :
    b64decode (b64encode b) = .ok b := by
  have hl : (b64encode b).length % 4 = 0 := by rw [b64encode_length]; omega
  rw [b64decode, if_pos hl, b64decodeQuanta_encode b hb 0]

end Authcookie

namespace Authcookie

/-! ## Digest shape facts -/

theorem sha256_length (msg : List Nat) : (sha256 msg).length = 32 := by
  simp [sha256, wordBytesBE]

theorem wordBytesBE_mem_lt (w : Nat) : ∀ x ∈ wordBytesBE w, x < 256 := by
  intro x hx
  simp only [wordBytesBE, List.mem_map] at hx
  obtain ⟨y, -, rfl⟩ := hx
  exact Nat.mod_lt y (by norm_num)

theorem sha256_mem_lt (msg : List Nat) : ∀ x ∈ sha256 msg, x < 256 := by
  intro x hx
  simp only [sha256, List.mem_append] at hx
  rcases hx with ((((((h | h) | h) | h) | h) | h) | h) | h <;>
    exact wordBytesBE_mem_lt _ x h

theorem hmacSHA256_length (key msg : List Nat) : (hmacSHA256 key msg).length = 32 :=
  sha256_length _

theorem hmacSHA256_mem_lt (key msg : List Nat) : ∀ x ∈ hmacSHA256 key msg, x < 256 :=
  sha256_mem_lt _

theorem getSignature_length (b secret : List Nat) : (getSignature b secret).length = 32 :=
  sha256_length _

theorem getSignature_mem_lt (b secret : List Nat) :
    ∀ x ∈ getSignature b secret, x < 256 :=
  sha256_mem_lt _

/-! ## Constant-time comparison facts -/

theorem or_eq_zero_iff (a b : Nat) : a ||| b = 0 ↔ a = 0 ∧ b = 0 := by
  constructor
  · intro h
    constructor
    · refine Nat.eq_of_testBit_eq fun i => ?_
      have := congrArg (fun n => Nat.testBit n i) h
      simp only [Nat.testBit_or, Nat.zero_testBit, Bool.or_eq_false_iff] at this
      simp [this.1]
    · refine Nat.eq_of_testBit_eq fun i => ?_
      have := congrArg (fun n => Nat.testBit n i) h
      simp only [Nat.testBit_or, Nat.zero_testBit, Bool.or_eq_false_iff] at this
      simp [this.2]
  · rintro ⟨rfl, rfl⟩
    rfl

theorem foldl_or_eq_zero_iff :
    ∀ (l : List Nat) (acc : Nat), l.foldl Nat.lor acc = 0 ↔ acc = 0 ∧ ∀ d ∈ l, d = 0
  | [], acc => by simp
  | d :: l, acc => by
    rw [List.foldl_cons, foldl_or_eq_zero_iff l (Nat.lor acc d)]
    constructor
    · rintro ⟨h, hl⟩
      have h2 : acc = 0 ∧ d = 0 := (or_eq_zero_iff acc d).1 h
      exact ⟨h2.1, fun x hx => by
        rcases List.mem_cons.1 hx with rfl | hx
        · exact h2.2
        · exact hl x hx⟩
    · rintro ⟨rfl, hl⟩
      refine ⟨?_, fun x hx => hl x (List.mem_cons_of_mem _ hx)⟩
      rw [hl d (List.mem_cons_self _ _)]
      rfl

theorem constantTimeByteEq_zero_iff : ∀ v < 256, (constantTimeByteEq v 0 = 1 ↔ v = 0) := by
  decide

theorem zipWith_xor_all_zero_iff :
    ∀ (x y : List Nat), x.length = y.length →
      ((∀ d ∈ List.zipWith Nat.xor x y, d = 0) ↔ x = y)
  | [], [], _ => by simp
  | [], _ :: _, h => by simp at h
  | _ :: _, [], h => by simp at h
  | a :: x, b :: y, h => by
    simp only [List.zipWith_cons_cons, List.mem_cons, List.cons.injEq]
    rw [forall_eq_or_imp]
    have ih := zipWith_xor_all_zero_iff x y (by simpa using h)
    rw [ih]
    constructor
    · rintro ⟨h1, h2⟩
      exact ⟨Nat.xor_eq_zero.1 h1, h2⟩
    · rintro ⟨rfl, rfl⟩
      exact ⟨Nat.xor_self a, rfl⟩

theorem zipWith_xor_mem_lt :
    ∀ (x y : List Nat), (∀ b ∈ x, b < 256) → (∀ b ∈ y, b < 256) →
      ∀ d ∈ List.zipWith Nat.xor x y, d < 256
  | [], _, _, _ => by simp
  | _ :: _, [], _, _ => by simp
  | a :: x, b :: y, hx, hy => by
    simp only [List.zipWith_cons_cons, List.mem_cons]
    rintro d (rfl | hd)
    · have h1 : a < 2 ^ 8 := by have := hx a (by simp); norm_num [this]
      have h2 : b < 2 ^ 8 := by have := hy b (by simp); norm_num [this]
      have h3 := Nat.xor_lt_two_pow h1 h2
      norm_num at h3
      exact h3
    · exact zipWith_xor_mem_lt x y (fun u hu => hx u (by simp [hu]))
        (fun u hu => hy u (by simp [hu])) d hd

end Authcookie

namespace Authcookie

theorem foldl_or_lt :
    ∀ (l : List Nat) (acc : Nat), acc < 256 → (∀ d ∈ l, d < 256) →
      l.foldl Nat.lor acc < 256
  | [], acc, hacc, _ => hacc
  | d :: l, acc, hacc, hl => by
    rw [List.foldl_cons]
    refine foldl_or_lt l (Nat.lor acc d) ?_ (fun u hu => hl u (by simp [hu]))
    have h1 : acc < 2 ^ 8 := by norm_num [hacc]
    have h2 : d < 2 ^ 8 := by have := hl d (by simp); norm_num [this]
    have h3 := Nat.or_lt_two_pow h1 h2
    norm_num at h3
    exact h3

theorem constantTimeByteEq_eq_one_iff : ∀ v < 256, (constantTimeByteEq v 0 = 1 ↔ v = 0) := by
  decide

theorem constantTimeCompare_eq_one_iff (x y : List Nat) (hlen : x.length = y.length)
    (hx : ∀ b ∈ x, b < 256) (hy : ∀ b ∈ y, b < 256) :
    constantTimeCompare x y = 1 ↔ x = y := by
  rw [constantTimeCompare]
  have hvlt : (List.zipWith Nat.xor x y).foldl Nat.lor 0 < 256 :=
    foldl_or_lt _ 0 (by norm_num) (zipWith_xor_mem_lt x y hx hy)
  rw [constantTimeByteEq_eq_one_iff _ hvlt, foldl_or_eq_zero_iff]
  simp only [true_and]
  rw [zipWith_xor_all_zero_iff x y hlen]

theorem counted_fst :
    ∀ (l : List Nat) (a c : Nat),
      (l.foldl (fun p d => (p.1 ||| d, p.2 + 1)) (a, c)).1 = l.foldl Nat.lor a
  | [], _, _ => rfl
  | d :: l, a, c => by
    rw [List.foldl_cons, List.foldl_cons]
    exact counted_fst l (a ||| d) (c + 1)

theorem counted_snd :
    ∀ (l : List Nat) (a c : Nat),
      (l.foldl (fun p d => (p.1 ||| d, p.2 + 1)) (a, c)).2 = c + l.length
  | [], _, _ => by simp
  | d :: l, a, c => by
    rw [List.foldl_cons, counted_snd l (a ||| d) (c + 1)]
    simp
    omega

theorem constantTimeCompareCounted_snd (x y : List Nat) :
    (constantTimeCompareCounted x y).2 = min x.length y.length := by
  rw [constantTimeCompareCounted, counted_snd]
  simp

theorem constantTimeCompareCounted_fst (x y : List Nat) :
    constantTimeCompare x y =
      constantTimeByteEq (constantTimeCompareCounted x y).1 0 := by
  rw [constantTimeCompare, constantTimeCompareCounted, counted_fst]

/-! ## Big-endian round-trip -/

theorem beUint32_putUint32BE (v : Nat) (hv : v < 4294967296) :
    beUint32 (putUint32BE v) = v := by
  simp only [putUint32BE, List.map_cons, List.map_nil, beUint32]
  simp only [Nat.shiftLeft_eq, Nat.shiftRight_eq_div_pow]
  norm_num
  rw [or_eq_add_left 24 (v / 16777216 % 256 * 16777216) (v / 65536 % 256 * 65536)
      (by omega) (by omega)]
  rw [or_eq_add_left 16 (v / 16777216 % 256 * 16777216 + v / 65536 % 256 * 65536)
      (v / 256 % 256 * 256) (by omega) (by omega)]
  rw [or_eq_add_left 8
      (v / 16777216 % 256 * 16777216 + v / 65536 % 256 * 65536 + v / 256 % 256 * 256)
      (v % 256) (by omega) (by omega)]
  omega

end Authcookie

namespace Authcookie

/-! ## Structure of parsed fresh tokens -/

theorem putUint32BE_length (v : Nat) : (putUint32BE v).length = 4 := by
  simp [putUint32BE]

theorem putUint32BE_mem_lt (v : Nat) : ∀ x ∈ putUint32BE v, x < 256 := by
  intro x hx
  simp only [putUint32BE, List.mem_map] at hx
  obtain ⟨y, -, rfl⟩ := hx
  exact Nat.mod_lt y (by norm_num)

theorem emod32_toNat_lt (E : Int) : (E % 4294967296).toNat < 4294967296 := by
  have h1 : (0 : Int) ≤ E % 4294967296 := Int.emod_nonneg E (by norm_num)
  have h2 : E % 4294967296 < 4294967296 := Int.emod_lt_of_pos E (by norm_num)
  omega

theorem New_eq (L : List Nat) (E : Int) (K : List Nat) (hL : L ≠ []) :
    New L E K =
      b64encode ((putUint32BE (E % 4294967296).toNat ++ L) ++
        getSignature (putUint32BE (E % 4294967296).toNat ++ L) K) := by
  simp [New, hL]

theorem New_length (L : List Nat) (E : Int) (K : List Nat) (hL : L ≠ []) :
    (New L E K).length = (L.length + 38) / 3 * 4 := by
  rw [New_eq L E K hL, b64encode_length]
  simp [putUint32BE, getSignature_length]

theorem parse_new (L : List Nat) (E : Int) (K1 K2 : List Nat) (hL : L ≠ [])
    (hLr : ∀ x ∈ L, x < 256) :
    Parse (New L E K1) K2 =
      if constantTimeCompare
          (getSignature (putUint32BE (E % 4294967296).toNat ++ L) K2)
          (getSignature (putUint32BE (E % 4294967296).toNat ++ L) K1) = 1 then
        .ok (L, E % 4294967296)
      else .error .wrongSignature := by
  have hLpos : 0 < L.length := List.length_pos.2 hL
  have hp4 : (putUint32BE (E % 4294967296).toNat).length = 4 := putUint32BE_length _
  have hsig : (getSignature (putUint32BE (E % 4294967296).toNat ++ L) K1).length = 32 :=
    getSignature_length _ _
  have hdata : ((putUint32BE (E % 4294967296).toNat ++ L)).length = 4 + L.length := by
    simp [hp4]
  have hmsg : (((putUint32BE (E % 4294967296).toNat ++ L) ++
      getSignature (putUint32BE (E % 4294967296).toNat ++ L) K1)).length =
      L.length + 36 := by
    simp only [List.length_append, hdata, hsig]
    omega
  have hrange : ∀ x ∈ (putUint32BE (E % 4294967296).toNat ++ L) ++
      getSignature (putUint32BE (E % 4294967296).toNat ++ L) K1, x < 256 := by
    intro x hx
    rcases List.mem_append.1 hx with hx | hx
    · rcases List.mem_append.1 hx with hx | hx
      · exact putUint32BE_mem_lt _ x hx
      · exact hLr x hx
    · exact getSignature_mem_lt _ _ x hx
  have hdec : b64decode (New L E K1) = .ok ((putUint32BE (E % 4294967296).toNat ++ L) ++
      getSignature (putUint32BE (E % 4294967296).toNat ++ L) K1) := by
    rw [New_eq L E K1 hL]
    exact b64decode_encode _ hrange
  have hlen : (New L E K1).length = (L.length + 38) / 3 * 4 := New_length L E K1 hL
  have hmin : ¬ decodedLen (New L E K1).length < decodedMinLength := by
    rw [hlen, decodedLen, decodedMinLength]
    omega
  rw [Parse, if_neg hmin, hdec]
  dsimp only
  have hmin2 : ¬ (((putUint32BE (E % 4294967296).toNat ++ L) ++
      getSignature (putUint32BE (E % 4294967296).toNat ++ L) K1)).length <
      decodedMinLength := by
    rw [hmsg, decodedMinLength]
    omega
  rw [if_neg hmin2]
  have hdrop : (((putUint32BE (E % 4294967296).toNat ++ L) ++
      getSignature (putUint32BE (E % 4294967296).toNat ++ L) K1)).drop
      ((((putUint32BE (E % 4294967296).toNat ++ L) ++
        getSignature (putUint32BE (E % 4294967296).toNat ++ L) K1)).length - 32) =
      getSignature (putUint32BE (E % 4294967296).toNat ++ L) K1 :=
    List.drop_left' (by rw [hmsg, hdata]; omega)
  have htake : (((putUint32BE (E % 4294967296).toNat ++ L) ++
      getSignature (putUint32BE (E % 4294967296).toNat ++ L) K1)).take
      ((((putUint32BE (E % 4294967296).toNat ++ L) ++
        getSignature (putUint32BE (E % 4294967296).toNat ++ L) K1)).length - 32) =
      putUint32BE (E % 4294967296).toNat ++ L :=
    List.take_left' (by rw [hmsg, hdata]; omega)
  rw [hdrop, htake]
  have hdrop4 : ((putUint32BE (E % 4294967296).toNat ++ L)).drop 4 = L :=
    List.drop_left' hp4
  have htake4 : ((putUint32BE (E % 4294967296).toNat ++ L)).take 4 =
      putUint32BE (E % 4294967296).toNat :=
    List.take_left' hp4
  rw [hdrop4, htake4, beUint32_putUint32BE _ (emod32_toNat_lt E)]
  have hcast : Int.ofNat (E % 4294967296).toNat = E % 4294967296 :=
    Int.toNat_of_nonneg (Int.emod_nonneg E (by norm_num))
  rw [hcast]

end Authcookie

namespace Authcookie

theorem Parse_short (cookie K : List Nat)
    (h : decodedLen cookie.length < decodedMinLength) :
    Parse cookie K = .error .malformedCookie := by
  rw [Parse, if_pos h]

theorem Parse_decode_error (cookie K : List Nat) (p : Nat)
    (h1 : ¬ decodedLen cookie.length < decodedMinLength)
    (h2 : b64decode cookie = .error p) :
    Parse cookie K = .error (.corruptInput p) := by
  rw [Parse, if_neg h1, h2]

theorem b64decode_mod_error (src : List Nat) (h : src.length % 4 ≠ 0) :
    b64decode src = .error (src.length / 4 * 4) := by
  rw [b64decode, if_neg h]

theorem New_decode (L : List Nat) (E : Int) (K : List Nat) (hL : L ≠ [])
    (hLr : ∀ x ∈ L, x < 256) :
    b64decode (New L E K) = .ok ((putUint32BE (E % 4294967296).toNat ++ L) ++
      getSignature (putUint32BE (E % 4294967296).toNat ++ L) K) := by
  rw [New_eq L E K hL]
  refine b64decode_encode _ ?_
  intro x hx
  rcases List.mem_append.1 hx with hx | hx
  · rcases List.mem_append.1 hx with hx | hx
    · exact putUint32BE_mem_lt _ x hx
    · exact hLr x hx
  · exact getSignature_mem_lt _ _ x hx

theorem parse_new_same_key (L : List Nat) (E : Int) (K : List Nat) (hL : L ≠ [])
    (hLr : ∀ x ∈ L, x < 256) :
    Parse (New L E K) K = .ok (L, E % 4294967296) := by
  rw [parse_new L E K K hL hLr, if_pos]
  refine (constantTimeCompare_eq_one_iff _ _ ?_ (getSignature_mem_lt _ _)
    (getSignature_mem_lt _ _)).2 rfl
  simp [getSignature_length]

theorem Parse_ok_login_ne_nil (cookie K l : List Nat) (e : Int)
    (h : Parse cookie K = .ok (l, e)) : l ≠ [] := by
  rw [Parse] at h
  by_cases h1 : decodedLen cookie.length < decodedMinLength
  · rw [if_pos h1] at h
    exact absurd h (by simp)
  rw [if_neg h1] at h
  cases hdec : b64decode cookie with
  | error p =>
    rw [hdec] at h
    exact absurd h (by simp)
  | ok b =>
    rw [hdec] at h
    dsimp only at h
    by_cases h2 : b.length < decodedMinLength
    · rw [if_pos h2] at h
      exact absurd h (by simp)
    rw [if_neg h2] at h
    by_cases h3 : constantTimeCompare (getSignature (b.take (b.length - 32)) K)
        (b.drop (b.length - 32)) = 1
    · rw [if_pos h3] at h
      simp only [Except.ok.injEq, Prod.mk.injEq] at h
      have hlb : ¬ b.length < 37 := h2
      have hlen : ((b.take (b.length - 32)).drop 4).length = b.length - 36 := by
        simp only [List.length_drop, List.length_take]
        omega
      intro hnil
      rw [h.1, hnil] at hlen
      simp at hlen
      omega
    · rw [if_neg h3] at h
      exact absurd h (by simp)

theorem Login_eq_empty_iff (cookie K : List Nat) (now : Int) :
    Login cookie K now = [] ↔
      (∃ e, Parse cookie K = .error e) ∨
      (∃ l x, Parse cookie K = .ok (l, x) ∧ x < now) := by
  cases h : Parse cookie K with
  | error e =>
    rw [Login, h]
    constructor
    · intro _
      exact Or.inl ⟨e, rfl⟩
    · intro _
      trivial
  | ok p =>
    obtain ⟨l, x⟩ := p
    rw [Login, h]
    dsimp only
    by_cases hx : x < now
    · rw [if_pos hx]
      constructor
      · intro _
        exact Or.inr ⟨l, x, rfl, hx⟩
      · intro _
        trivial
    · rw [if_neg hx]
      constructor
      · intro hnil
        exact absurd hnil (Parse_ok_login_ne_nil cookie K l x h)
      · rintro (⟨e, he⟩ | ⟨u, v, huv, hv⟩)
        · exact absurd he (by simp)
        · simp only [Except.ok.injEq, Prod.mk.injEq] at huv
          obtain ⟨-, rfl⟩ := huv
          exact absurd hv hx

theorem Login_eq_of_ok (cookie K l : List Nat) (x now : Int)
    (h : Parse cookie K = .ok (l, x)) (hx : ¬ x < now) :
    Login cookie K now = l := by
  rw [Login, h]
  dsimp only
  rw [if_neg hx]

end Authcookie

namespace Authcookie

/-- C1 (amended): for every non-empty login of bytes, secret key, and
expiration in `[0, 2^32)`, parsing a freshly issued cookie with the same
secret returns exactly the login and the expiration with no error.  (For
expirations outside that range the returned value is the expiration modulo
`2^32`; see the counterexample.) -/
theorem c1_round_trip (L : List Nat) (E : Int) (K : List Nat) (hL : L ≠ [])
    (hLr : ∀ x ∈ L, x < 256) (hE0 : 0 ≤ E) (hE1 : E < 4294967296) :
    Parse (New L E K) K = .ok (L, E) := by
  rw [parse_new_same_key L E K hL hLr, Int.emod_eq_of_lt hE0 hE1]

/-- C1, witness: a concrete round trip. -/
theorem c1_round_trip_witness : Parse (New [98] 5 [107]) [107] = .ok ([98], 5) :=
  c1_round_trip [98] 5 [107] (by decide) (by decide) (by decide) (by decide)

/-- C1, counterexample to the unrestricted claim: at expiration `2^32` the
parsed expiration is `0`, not `2^32`. -/
theorem c1_cex :
    ¬ Parse (New [98] 4294967296 [107]) [107] = .ok ([98], 4294967296) := by
  intro hcontra
  rw [parse_new_same_key [98] 4294967296 [107] (by decide) (by decide)] at hcontra
  simp only [Except.ok.injEq, Prod.mk.injEq] at hcontra
  omega

/-- C2 (amended): truncating a fresh token always fails the structural
checks before any signature check in these cases: if the decoded-length
bound of the truncated string falls below the 37-byte minimum, `Parse`
returns the malformed-cookie error; otherwise, if the truncated length is
not a multiple of four, `Parse` returns the base64 corrupt-input error (not
the malformed-cookie error); in particular any truncation by an amount not
divisible by four produces one of these two errors, never a signature
result. -/
theorem c2_truncation (L : List Nat) (E : Int) (K : List Nat) (hL : L ≠ [])
    (k : Nat) (hk1 : 1 ≤ k) (hk2 : k ≤ (New L E K).length) :
    (decodedLen ((New L E K).take ((New L E K).length - k)).length <
        decodedMinLength →
      Parse ((New L E K).take ((New L E K).length - k)) K =
        .error .malformedCookie) ∧
    (¬ decodedLen ((New L E K).take ((New L E K).length - k)).length <
        decodedMinLength →
      ((New L E K).take ((New L E K).length - k)).length % 4 ≠ 0 →
      Parse ((New L E K).take ((New L E K).length - k)) K =
        .error (.corruptInput
          (((New L E K).take ((New L E K).length - k)).length / 4 * 4))) ∧
    (k % 4 ≠ 0 →
      Parse ((New L E K).take ((New L E K).length - k)) K =
          .error .malformedCookie ∨
        Parse ((New L E K).take ((New L E K).length - k)) K =
          .error (.corruptInput
            (((New L E K).take ((New L E K).length - k)).length / 4 * 4))) := by
  have htl : ((New L E K).take ((New L E K).length - k)).length =
      (New L E K).length - k := by
    rw [List.length_take]
    omega
  refine ⟨fun h => Parse_short _ _ h,
    fun h hm => Parse_decode_error _ _ _ h (b64decode_mod_error _ hm), fun hk4 => ?_⟩
  have hmod : (New L E K).length % 4 = 0 := by
    rw [New_length L E K hL]
    omega
  have hm : ((New L E K).take ((New L E K).length - k)).length % 4 ≠ 0 := by
    rw [htl]
    omega
  by_cases h : decodedLen ((New L E K).take ((New L E K).length - k)).length <
      decodedMinLength
  · exact Or.inl (Parse_short _ _ h)
  · exact Or.inr (Parse_decode_error _ _ _ h (b64decode_mod_error _ hm))

/-- C2, witness: dropping the last byte of a minimal (one-byte-login) token
leaves 51 characters, whose decoded-length bound 36 is below the minimum,
so `Parse` reports the malformed-cookie error. -/
theorem c2_truncation_witness :
    Parse ((New [98] 0 [107]).take ((New [98] 0 [107]).length - 1)) [107] =
      .error .malformedCookie := by
  have hlen : (New [98] 0 [107]).length = 52 := by
    rw [New_length [98] 0 [107] (by decide)]
    norm_num
  refine (c2_truncation [98] 0 [107] (by decide) 1 (by decide) (by omega)).1 ?_
  rw [List.length_take, hlen]
  decide

/-- C2, counterexample: the 56-character token for login `bender` truncated
by one byte decodes-bound to 39 (above the minimum), so `Parse` returns the
base64 corrupt-input error at position 52 and not the malformed-cookie
error. -/
theorem c2_cex :
    (New [98, 101, 110, 100, 101, 114] 42 [107]).length = 56 ∧
    Parse ((New [98, 101, 110, 100, 101, 114] 42 [107]).take 55) [107] =
      .error (.corruptInput 52) ∧
    (CookieError.corruptInput 52 : CookieError) ≠ .malformedCookie := by
  have hlen : (New [98, 101, 110, 100, 101, 114] 42 [107]).length = 56 := by
    rw [New_length [98, 101, 110, 100, 101, 114] 42 [107] (by decide)]
    norm_num
  have htl : ((New [98, 101, 110, 100, 101, 114] 42 [107]).take 55).length = 55 := by
    rw [List.length_take, hlen]
    norm_num
  have hm : ((New [98, 101, 110, 100, 101, 114] 42 [107]).take 55).length % 4 ≠ 0 := by
    rw [htl]
    decide
  have h2 : b64decode ((New [98, 101, 110, 100, 101, 114] 42 [107]).take 55) =
      .error 52 := by
    rw [b64decode_mod_error _ hm, htl]
  have h1 : ¬ decodedLen ((New [98, 101, 110, 100, 101, 114] 42 [107]).take 55).length <
      decodedMinLength := by
    rw [htl]
    decide
  exact ⟨hlen, Parse_decode_error _ _ 52 h1 h2, by decide⟩

/-- C3 (amended): when base64 decoding of the input fails, `Parse` returns a
structural error, never the wrong-signature error: the malformed-cookie
error if the input was too short to reach the decoder, and otherwise the
decoder's own corrupt-input error (which is a distinct error value from the
malformed-cookie error; see the counterexample). -/
theorem c3_decode_error (cookie K : List Nat) (p : Nat)
    (hdec : b64decode cookie = .error p) :
    (Parse cookie K = .error .malformedCookie ∨
      Parse cookie K = .error (.corruptInput p)) ∧
    Parse cookie K ≠ .error .wrongSignature := by
  by_cases h1 : decodedLen cookie.length < decodedMinLength
  · have h := Parse_short cookie K h1
    exact ⟨Or.inl h, by rw [h]; simp⟩
  · have h := Parse_decode_error cookie K p h1 hdec
    exact ⟨Or.inr h, by rw [h]; simp⟩

/-- C3, witness: a four-character invalid input is caught by the length
check, a structural error and not a signature error. -/
theorem c3_decode_error_witness :
    (Parse [33, 33, 33, 33] [107] = .error .malformedCookie ∨
      Parse [33, 33, 33, 33] [107] = .error (.corruptInput 0)) ∧
    Parse [33, 33, 33, 33] [107] ≠ .error .wrongSignature :=
  c3_decode_error [33, 33, 33, 33] [107] 0 (by decide)

/-- C3, counterexample: 52 `!` characters fail base64 decoding, and `Parse`
returns the corrupt-input error at position 0, which is not the
malformed-cookie error value. -/
theorem c3_cex :
    b64decode (List.replicate 52 33) = .error 0 ∧
    Parse (List.replicate 52 33) [107] = .error (.corruptInput 0) ∧
    Parse (List.replicate 52 33) [107] ≠ .error .malformedCookie := by
  refine ⟨by decide, by decide, by decide⟩

/-- C4: `New` stores the low 32 bits of the `int64` expiration as the four
big-endian leading bytes of the decoded token, and `Parse` with the same
secret returns the expiration reduced modulo `2^32`, for every integer
expiration. -/
theorem c4_expiration_wraps (L : List Nat) (E : Int) (K : List Nat)
    (hL : L ≠ []) (hLr : ∀ x ∈ L, x < 256) :
    b64decode (New L E K) = .ok ((putUint32BE (E % 4294967296).toNat ++ L) ++
      getSignature (putUint32BE (E % 4294967296).toNat ++ L) K) ∧
    Parse (New L E K) K = .ok (L, E % 4294967296) :=
  ⟨New_decode L E K hL hLr, parse_new_same_key L E K hL hLr⟩

/-- C4, witness: expiration −1 wraps to `2^32 − 1`. -/
theorem c4_expiration_wraps_witness :
    Parse (New [98] (-1) [107]) [107] = .ok ([98], 4294967295) := by
  have h := (c4_expiration_wraps [98] (-1) [107] (by decide) (by decide)).2
  have h2 : ((-1 : Int) % 4294967296) = 4294967295 := by decide
  rw [h2] at h
  exact h

/-- C5: the signature embedded in every fresh token is the nested two-pass
construction of the specification, `HMAC-SHA256(payload, key =
HMAC-SHA256(payload, key = secret))`, computed by `getSignature` both when
issuing and when verifying; and it differs from a single HMAC pass on a
concrete payload. -/
theorem c5_two_pass_tag :
    (∀ b secret : List Nat, getSignature b secret = specTwoPassTag b secret) ∧
    (∀ (L : List Nat) (E : Int) (K : List Nat), L ≠ [] → (∀ x ∈ L, x < 256) →
      b64decode (New L E K) = .ok ((putUint32BE (E % 4294967296).toNat ++ L) ++
        specTwoPassTag (putUint32BE (E % 4294967296).toNat ++ L) K)) ∧
    specTwoPassTag [0, 0, 0, 42, 104] [107] ≠ hmacSHA256 [107] [0, 0, 0, 42, 104] := by
  refine ⟨fun b secret => rfl, fun L E K hL hLr => New_decode L E K hL hLr, by decide⟩

/-- C5, witness: the decoded concrete token is payload followed by the
two-pass tag. -/
theorem c5_two_pass_tag_witness :
    b64decode (New [98] 0 [107]) = .ok ((putUint32BE ((0 : Int) % 4294967296).toNat ++
      [98]) ++ specTwoPassTag (putUint32BE ((0 : Int) % 4294967296).toNat ++ [98]) [107]) :=
  c5_two_pass_tag.2.1 [98] 0 [107] (by decide) (by decide)

end Authcookie

namespace Authcookie

/-- C6: whenever the base64 decoding of the input succeeds with fewer than
37 bytes (4 expiration + 1 login + 32 signature), `Parse` returns the
malformed-cookie error and no signature result; the single minimum-length
constant thus rejects truncated tokens and empty-login tokens alike. -/
theorem c6_min_length (cookie K b : List Nat) (hdec : b64decode cookie = .ok b)
    (hlt : b.length < decodedMinLength) :
    Parse cookie K = .error .malformedCookie := by
  by_cases h1 : decodedLen cookie.length < decodedMinLength
  · exact Parse_short cookie K h1
  · rw [Parse, if_neg h1, hdec]
    dsimp only
    rw [if_pos hlt]

/-- C6, witness: `AAAA` decodes to three zero bytes, below the minimum. -/
theorem c6_min_length_witness :
    Parse [65, 65, 65, 65] [107] = .error .malformedCookie :=
  c6_min_length [65, 65, 65, 65] [107] [0, 0, 0] (by decide) (by decide)

/-- C7: `Parse` performs no freshness check — a token whose expiration lies
in the past still parses to exactly its login and expiration with no
error — while `Login` returns the empty string exactly when `Parse` fails
or the extracted expiration is below the current time, and returns the
extracted login otherwise. -/
theorem c7_expiration_is_data :
    (∀ (L : List Nat) (E : Int) (K : List Nat) (now : Int), L ≠ [] →
      (∀ x ∈ L, x < 256) → 0 ≤ E → E < 4294967296 → E < now →
      Parse (New L E K) K = .ok (L, E)) ∧
    (∀ (cookie K : List Nat) (now : Int),
      Login cookie K now = [] ↔
        (∃ e, Parse cookie K = .error e) ∨
        (∃ l x, Parse cookie K = .ok (l, x) ∧ x < now)) ∧
    (∀ (cookie K l : List Nat) (x now : Int),
      Parse cookie K = .ok (l, x) → ¬ x < now → Login cookie K now = l) := by
  refine ⟨fun L E K now hL hLr hE0 hE1 _ => ?_, Login_eq_empty_iff, Login_eq_of_ok⟩
  rw [parse_new_same_key L E K hL hLr, Int.emod_eq_of_lt hE0 hE1]

/-- C7, witness: an expired token still parses; `Login` then rejects it. -/
theorem c7_expiration_is_data_witness :
    Parse (New [98] 1 [107]) [107] = .ok ([98], 1) :=
  c7_expiration_is_data.1 [98] 1 [107] 2 (by decide) (by decide) (by decide)
    (by decide) (by decide)

/-- C8: `New` returns the empty string exactly when the login is empty; a
non-empty login always yields a non-empty token. -/
theorem c8_empty_login_sentinel (L : List Nat) (E : Int) (K : List Nat) :
    New L E K = [] ↔ L = [] := by
  constructor
  · intro h
    by_contra hL
    have h2 := New_eq L E K hL
    rw [h] at h2
    refine b64encode_ne_nil _ ?_ h2.symm
    intro hmsg
    have hl := congrArg List.length hmsg
    simp only [List.length_append, putUint32BE_length, List.length_nil] at hl
    omega
  · rintro rfl
    simp [New]

/-- C9: the tag comparison of `Parse` is the branch-free accumulator loop of
`ConstantTimeCompare`: it agrees with the instrumented loop, whose iteration
count depends only on the lengths of the inputs (32 and 32 in `Parse`, the
recomputed signature always having length 32) and never on where a mismatch
occurs, and over equal-length byte lists it decides equality. -/
theorem c9_constant_time :
    (∀ x y : List Nat, constantTimeCompare x y =
      constantTimeByteEq (constantTimeCompareCounted x y).1 0) ∧
    (∀ x y u v : List Nat, x.length = u.length → y.length = v.length →
      (constantTimeCompareCounted x y).2 = (constantTimeCompareCounted u v).2) ∧
    (∀ x y : List Nat, x.length = 32 → y.length = 32 →
      (constantTimeCompareCounted x y).2 = 32) ∧
    (∀ data secret : List Nat, (getSignature data secret).length = 32) ∧
    (∀ x y : List Nat, x.length = y.length → (∀ b ∈ x, b < 256) →
      (∀ b ∈ y, b < 256) → (constantTimeCompare x y = 1 ↔ x = y)) := by
  refine ⟨constantTimeCompareCounted_fst, fun x y u v hxu hyv => ?_,
    fun x y hx hy => ?_, getSignature_length, constantTimeCompare_eq_one_iff⟩
  · rw [constantTimeCompareCounted_snd, constantTimeCompareCounted_snd, hxu, hyv]
  · rw [constantTimeCompareCounted_snd, hx, hy]
    simp

/-- C9, witness: the loop runs 32 iterations on a pair differing in the
first byte and on a pair differing in the last byte alike, and the
comparison decides equality on a concrete pair. -/
theorem c9_constant_time_witness :
    (constantTimeCompareCounted (1 :: List.replicate 31 0) (2 :: List.replicate 31 0)).2 =
      (constantTimeCompareCounted (List.replicate 31 0 ++ [1])
        (List.replicate 31 0 ++ [2])).2 ∧
    constantTimeCompare [9] [9] = 1 :=
  ⟨c9_constant_time.2.1 _ _ _ _ (by decide) (by decide),
   (c9_constant_time.2.2.2.2 [9] [9] rfl (by decide) (by decide)).2 rfl⟩

/-- C10: a fresh token with a non-empty login is structurally well-formed
for `Parse` under any verifying secret: the result is either the login and
wrapped expiration with no error, or the wrong-signature error — never the
malformed-cookie error and never a base64 decode error. -/
theorem c10_fresh_token_structure (L : List Nat) (E : Int) (K1 K2 : List Nat)
    (hL : L ≠ []) (hLr : ∀ x ∈ L, x < 256) :
    Parse (New L E K1) K2 = .ok (L, E % 4294967296) ∨
    Parse (New L E K1) K2 = .error .wrongSignature := by
  rw [parse_new L E K1 K2 hL hLr]
  by_cases h : constantTimeCompare
      (getSignature (putUint32BE (E % 4294967296).toNat ++ L) K2)
      (getSignature (putUint32BE (E % 4294967296).toNat ++ L) K1) = 1
  · exact Or.inl (by rw [if_pos h])
  · exact Or.inr (by rw [if_neg h])

/-- C10, witness: a concrete token checked under a different secret. -/
theorem c10_fresh_token_structure_witness :
    Parse (New [98] 7 [107]) [119] = .ok ([98], (7 : Int) % 4294967296) ∨
    Parse (New [98] 7 [107]) [119] = .error .wrongSignature :=
  c10_fresh_token_structure [98] 7 [107] [119] (by decide) (by decide)

/-- The Go test vector of the package: the cookie issued for login
`hello world` with expiration 42 under `secret key` is the documented
64-character base64 string. -/
theorem new_matches_test_vector :
    New [104, 101, 108, 108, 111, 32, 119, 111, 114, 108, 100] 42
      [115, 101, 99, 114, 101, 116, 32, 107, 101, 121] =
    [65, 65, 65, 65, 75, 109, 104, 108, 98, 71, 120, 118, 73, 72, 100, 118, 99,
     109, 120, 107, 57, 112, 54, 107, 111, 81, 118, 83, 97, 99, 65, 101, 108,
     105, 65, 109, 52, 52, 53, 105, 55, 101, 114, 114, 83, 107, 49, 78, 80, 107,
     89, 74, 71, 89, 90, 104, 70, 57, 51, 119, 71, 57, 85, 61] := by
  decide

end Authcookie
